import Mathlib

set_option maxRecDepth 10000
set_option linter.unusedVariables false

/-! Verification development for curtkr.c: a mouse-trail overlay built from a
fixed-capacity circular buffer of cursor samples and a per-frame rendering
pass over that buffer.

Modelling conventions:
* C `double` arithmetic is embedded exactly over `ℚ`.  Every floating literal
  in the source (0.05, 0.2, 0.5, 1.0, 0.8, 0.9, 3.0) is a small decimal, and
  every comparison the program makes is far from a binary rounding boundary,
  so exact rationals agree with IEEE doubles on all of them.
* cairo calls made by `draw_trail` are embedded as an explicit trace of
  drawing operations (`DrawOp`), plus a pixel-level semantics (`applyOp`,
  `render`) in which a surface is a function from integer pixel coordinates
  to an RGBA value and `fill`/`paint` composite with the current operator.
* The `cairo_arc` call always receives the fixed angles 0 and 2π (a full
  circle), so the trace records only center and radius.
* Machine ints are `Int`; the C `%` (truncating remainder) is `Int.tmod`.
-/

/-- Number of points in the trail, `TRAIL_LENGTH` (curtkr.c line 21). -/
def TRAIL_LENGTH : Nat := 50

/-- Radius of the trail circles, `TRAIL_RADIUS` (line 22). -/
def TRAIL_RADIUS : ℚ := 3.0

/-- Microseconds between loop iterations, `UPDATE_INTERVAL` (line 23). -/
def UPDATE_INTERVAL : Nat := 16666

/-- Trail color red component (line 25). -/
def TRAIL_R : ℚ := 0.2

/-- Trail color green component (line 26). -/
def TRAIL_G : ℚ := 0.5

/-- Trail color blue component (line 27). -/
def TRAIL_B : ℚ := 1.0

/-- Click color red component (line 29). -/
def CLICK_R : ℚ := 1.0

/-- Click color green component (line 30). -/
def CLICK_G : ℚ := 0.0

/-- Click color blue component (line 31). -/
def CLICK_B : ℚ := 0.0

/-- One slot of the trail buffer, struct `TrailPoint` (lines 35-40).  The C
`int` flags `valid` and `clicked` are zero/nonzero, embedded as `Bool`. -/
structure TrailPoint where
  x : Int
  y : Int
  valid : Bool
  clicked : Bool
deriving DecidableEq, Repr

instance : Inhabited TrailPoint := ⟨⟨0, 0, false, false⟩⟩

/-- The processwide mutable state: the circular buffer `trail_points` and the
write cursor `trail_head` (lines 43-44). -/
structure RingState where
  trail_points : List TrailPoint
  trail_head : Nat
deriving DecidableEq, Repr

/-- State after `memset(trail_points, 0, sizeof(trail_points))` with
`trail_head = 0` (lines 44 and 117): fifty all-zero slots, all invalid. -/
def initState : RingState := ⟨List.replicate TRAIL_LENGTH default, 0⟩

/-- One store into the circular buffer (lines 217-230): write `x`, `y`,
`valid := 1` and the `clicked` flag into slot `trail_head`, then advance
`trail_head` modulo `TRAIL_LENGTH`. -/
def push (st : RingState) (x y : Int) (clicked : Bool) : RingState :=
  { trail_points := st.trail_points.set st.trail_head ⟨x, y, true, clicked⟩,
    trail_head := (st.trail_head + 1) % TRAIL_LENGTH }

/-- Fold a sequence of pushes (successive loop iterations) over a state. -/
def pushAll (st : RingState) (L : List (Int × Int × Bool)) : RingState :=
  L.foldl (fun s q => push s q.1 q.2.1 q.2.2) st

/-- Read index for age `i`, `(trail_head - 1 - i + TRAIL_LENGTH) % TRAIL_LENGTH`
(line 65), computed in C int arithmetic: `%` is the truncating remainder,
`Int.tmod`. -/
def currentIndex (head i : Nat) : Nat :=
  (((head : Int) - 1 - (i : Int) + (TRAIL_LENGTH : Int)).tmod
    (TRAIL_LENGTH : Int)).toNat

/-- The sample of age `i`: the slot read by the render loop at iteration `i`
(lines 64-69), `none` when that slot is marked invalid and is skipped. -/
def sampleAtAge (st : RingState) (i : Nat) : Option TrailPoint :=
  let p := st.trail_points.getD (currentIndex st.trail_head i) default
  if p.valid then some p else none

/-- Fade for age `i`: `alpha = 1.0 - ((double)i / TRAIL_LENGTH)` (line 71). -/
def alphaOfAge (i : Nat) : ℚ := 1 - (i : ℚ) / (TRAIL_LENGTH : ℚ)

/-- A cairo drawing call issued by `draw_trail`, recorded as data. -/
inductive DrawOp where
  | setSourceRgba (r g b a : ℚ)
  | setOperatorSource
  | setOperatorOver
  | paint
  | arc (cx cy : Int) (radius : ℚ)
  | fill
deriving DecidableEq, Repr

/-- The surface-clearing preamble of `draw_trail` (lines 57-61): transparent
source, operator SOURCE, paint, operator back to OVER. -/
def clearOps : List DrawOp :=
  [.setSourceRgba 0 0 0 0, .setOperatorSource, .paint, .setOperatorOver]

/-- One iteration of the render loop body (lines 64-90) for age `i`:
skip if the slot is invalid, skip if `alpha < 0.05`, otherwise set the
click or trail color and fill a disc at the sample's coordinates. -/
def drawAge (st : RingState) (i : Nat) : List DrawOp :=
  let idx := currentIndex st.trail_head i
  let p := st.trail_points.getD idx default
  if !p.valid then []
  else
    let alpha := alphaOfAge i
    if alpha < 0.05 then []
    else
      (if p.clicked then
        [DrawOp.setSourceRgba CLICK_R CLICK_G CLICK_B (alpha * 0.9)]
      else
        [DrawOp.setSourceRgba TRAIL_R TRAIL_G TRAIL_B (alpha * 0.8)]) ++
      [DrawOp.arc p.x p.y TRAIL_RADIUS, DrawOp.fill]

/-- Trace of cairo calls issued by `draw_trail(cr, width, height)`
(lines 56-91).  The `width` and `height` parameters appear in the C signature
and are bound here to mirror it; the body never reads them. -/
def draw_trail (st : RingState) (width height : Int) : List DrawOp :=
  clearOps ++ (List.range TRAIL_LENGTH).flatMap (drawAge st)

/-- A pixel color: red, green, blue, alpha, each in `ℚ`. -/
structure RGBA where
  r : ℚ
  g : ℚ
  b : ℚ
  a : ℚ
deriving DecidableEq, Repr

/-- The fully transparent pixel (alpha 0). -/
def transparent : RGBA := ⟨0, 0, 0, 0⟩

/-- A drawing surface: one RGBA value per integer pixel coordinate. -/
def Surface : Type := Int × Int → RGBA

/-- The two cairo compositing operators the program uses. -/
inductive CairoOperator where
  | source
  | over
deriving DecidableEq, Repr

/-- Standard source-over alpha compositing of source `s` onto destination `d`
(non-premultiplied; `ℚ` division is total with `x / 0 = 0`, reached only when
both alphas are 0, where every component is 0 anyway). -/
def blendOver (s d : RGBA) : RGBA :=
  let a := s.a + d.a * (1 - s.a)
  ⟨(s.r * s.a + d.r * d.a * (1 - s.a)) / a,
   (s.g * s.a + d.g * d.a * (1 - s.a)) / a,
   (s.b * s.a + d.b * d.a * (1 - s.a)) / a, a⟩

/-- Composite one source pixel onto one destination pixel. -/
def compose (o : CairoOperator) (s d : RGBA) : RGBA :=
  match o with
  | .source => s
  | .over => blendOver s d

/-- Whether pixel `p` lies inside the closed disc of radius `rad` centered at
`(cx, cy)` (antialiasing is not modelled). -/
def inDisc (cx cy : Int) (rad : ℚ) (p : Int × Int) : Bool :=
  ((p.1 - cx : Int) : ℚ) ^ 2 + ((p.2 - cy : Int) : ℚ) ^ 2 ≤ rad ^ 2

/-- The cairo context state the traced calls act on: the target surface, the
current source color, the current operator, and the current (arc) path. -/
structure CairoCtx where
  surface : Surface
  source : RGBA
  op : CairoOperator
  path : Option (Int × Int × ℚ)

/-- Semantics of one traced cairo call. -/
def applyOp (ctx : CairoCtx) (o : DrawOp) : CairoCtx :=
  match o with
  | .setSourceRgba r g b a => { ctx with source := ⟨r, g, b, a⟩ }
  | .setOperatorSource => { ctx with op := .source }
  | .setOperatorOver => { ctx with op := .over }
  | .paint =>
      { ctx with surface := fun p => compose ctx.op ctx.source (ctx.surface p) }
  | .arc cx cy rad => { ctx with path := some (cx, cy, rad) }
  | .fill =>
      { ctx with
        surface := fun p =>
          match ctx.path with
          | some (cx, cy, rad) =>
              if inDisc cx cy rad p then compose ctx.op ctx.source (ctx.surface p)
              else ctx.surface p
          | none => ctx.surface p,
        path := none }

/-- Pixel result of one full `draw_trail` pass over an initial surface `s`
(fresh cairo context defaults: opaque black source, operator OVER, no path). -/
def render (st : RingState) (width height : Int) (s : Surface) : Surface :=
  ((draw_trail st width height).foldl applyOp ⟨s, ⟨0, 0, 0, 1⟩, .over, none⟩).surface

/-- Union of `Button1Mask` through `Button5Mask` (X11 header constants,
bits 8-12), the test on line 223. -/
def anyButtonMask : Nat := 256 ||| 512 ||| 1024 ||| 2048 ||| 4096

/-- A successful `XQueryPointer` result: root coordinates and button mask. -/
structure PointerSample where
  x : Int
  y : Int
  mask : Nat
deriving DecidableEq, Repr

/-- Observable outcome of one main-loop iteration: the buffer state after it,
whether the failure warning was printed, and how long the iteration sleeps. -/
structure IterResult where
  state : RingState
  reportedFailure : Bool
  sleepMicros : Nat
deriving Repr

/-- One iteration of the main loop (lines 203-247).  On a successful query the
sample is stored (clicked iff any of buttons 1-5 is held) and the loop sleeps
`UPDATE_INTERVAL`; on a failed query nothing is stored, the failure is
reported, and the loop sleeps an extra 100000 μs before the regular interval.
Either way the loop continues (failure is never fatal). -/
def loopIter (st : RingState) (q : Option PointerSample) : IterResult :=
  match q with
  | some s =>
      ⟨push st s.x s.y (s.mask &&& anyButtonMask != 0), false, UPDATE_INTERVAL⟩
  | none => ⟨st, true, 100000 + UPDATE_INTERVAL⟩

/-- Buffer state after running the main loop over a sequence of query
results. -/
def runLoop (st : RingState) (qs : List (Option PointerSample)) : RingState :=
  qs.foldl (fun s q => (loopIter s q).state) st

/-- Buffer after the end-to-end scenario of the spec: exactly the three
samples (10,10,false), (20,20,true), (30,30,false) pushed, in order, into the
startup state. -/
def st3 : RingState :=
  push (push (push initState 10 10 false) 20 20 true) 30 30 false

/-! Helper lemmas about the buffer operations. -/

/-- Reading slot `j` after writing slot `n`: the written value when `n = j`
and the write landed in bounds, the old value otherwise. -/
lemma getD_set_eq_ite (l : List TrailPoint) (n j : Nat) (v : TrailPoint) :
    (l.set n v).getD j default =
      if n = j ∧ n < l.length then v else l.getD j default := by
  induction l generalizing n j with
  | nil => simp
  | cons a t ih =>
    cases n with
    | zero => cases j <;> simp
    | succ m =>
      cases j with
      | zero => simp
      | succ k => simpa using ih m k

/-- Pushing never changes the buffer length. -/
lemma pushAll_length (L : List (Int × Int × Bool)) (st : RingState) :
    (pushAll st L).trail_points.length = st.trail_points.length := by
  induction L generalizing st with
  | nil => rfl
  | cons q t ih =>
    show (pushAll (push st q.1 q.2.1 q.2.2) t).trail_points.length = _
    rw [ih]
    simp [push]

/-- The write cursor after a sequence of pushes. -/
lemma pushAll_head (L : List (Int × Int × Bool)) (st : RingState)
    (hh : st.trail_head < TRAIL_LENGTH) :
    (pushAll st L).trail_head = (st.trail_head + L.length) % TRAIL_LENGTH := by
  induction L generalizing st with
  | nil =>
    show st.trail_head = _
    simp [TRAIL_LENGTH] at hh ⊢
    omega
  | cons q t ih =>
    show (pushAll (push st q.1 q.2.1 q.2.2) t).trail_head = _
    rw [ih]
    · simp [push, TRAIL_LENGTH]
      omega
    · simp [push, TRAIL_LENGTH]
      omega

/-- Validity of slot `j` after pushing `L` onto the startup state: slot `j`
has been written (and so marked valid) exactly when `j < L.length`. -/
lemma pushAll_init_valid (L : List (Int × Int × Bool)) (j : Nat)
    (hj : j < TRAIL_LENGTH) :
    (((pushAll initState L).trail_points.getD j default).valid = true) ↔
      j < L.length := by
  induction L using List.reverseRecOn with
  | nil =>
    have h1 : initState.trail_points.getD j default = default := by
      rw [List.getD_eq_getElem?_getD]
      simp [initState, List.getElem?_replicate, hj]
    show ((initState.trail_points.getD j default).valid = true) ↔ _
    rw [h1]
    show ((TrailPoint.mk 0 0 false false).valid = true) ↔ _
    simp
  | append_singleton t q ih =>
    have hstep : pushAll initState (t ++ [q]) =
        push (pushAll initState t) q.1 q.2.1 q.2.2 := by
      simp [pushAll, List.foldl_append]
    rw [hstep]
    have hlen : (pushAll initState t).trail_points.length = TRAIL_LENGTH := by
      rw [pushAll_length]
      simp [initState]
    have hhead : (pushAll initState t).trail_head = t.length % TRAIL_LENGTH := by
      rw [pushAll_head t initState (by simp [initState, TRAIL_LENGTH])]
      simp [initState]
    show (((push (pushAll initState t) q.1 q.2.1 q.2.2).trail_points.getD
        j default).valid = true) ↔ _
    simp only [push]
    rw [getD_set_eq_ite, hlen, hhead]
    by_cases hc : t.length % TRAIL_LENGTH = j ∧ t.length % TRAIL_LENGTH < TRAIL_LENGTH
    · rw [if_pos hc]
      obtain ⟨hc1, hc2⟩ := hc
      simp only [TRAIL_LENGTH] at hc1 hc2
      simp only [List.length_append, List.length_cons, List.length_nil]
      constructor
      · intro _
        omega
      · intro _
        trivial
    · rw [if_neg hc, ih]
      simp only [TRAIL_LENGTH] at hc hj
      simp only [List.length_append, List.length_cons, List.length_nil]
      omega

/-- Unfolding of `drawAge` with the local variables of the C loop body
inlined (pure zeta reduction). -/
lemma drawAge_eq (st : RingState) (i : Nat) :
    drawAge st i =
      if !(st.trail_points.getD (currentIndex st.trail_head i) default).valid then []
      else if alphaOfAge i < 0.05 then []
      else
        (if (st.trail_points.getD (currentIndex st.trail_head i) default).clicked then
          [DrawOp.setSourceRgba CLICK_R CLICK_G CLICK_B (alphaOfAge i * 0.9)]
        else
          [DrawOp.setSourceRgba TRAIL_R TRAIL_G TRAIL_B (alphaOfAge i * 0.8)]) ++
        [DrawOp.arc (st.trail_points.getD (currentIndex st.trail_head i) default).x
           (st.trail_points.getD (currentIndex st.trail_head i) default).y
           TRAIL_RADIUS,
         DrawOp.fill] := rfl

/-- A slot that is marked invalid contributes nothing to the trace. -/
lemma drawAge_invalid (st : RingState) (i : Nat)
    (h : (st.trail_points.getD (currentIndex st.trail_head i) default).valid = false) :
    drawAge st i = [] := by
  rw [drawAge_eq, h]
  simp

/-- Unfolding of `drawAge` once the cull test is known to fail: the slot is
drawn (when valid) with the click- or trail-colored disc. -/
lemma drawAge_not_culled (st : RingState) (i : Nat)
    (h : ¬ alphaOfAge i < 0.05) :
    drawAge st i =
      if !(st.trail_points.getD (currentIndex st.trail_head i) default).valid then []
      else
        (if (st.trail_points.getD (currentIndex st.trail_head i) default).clicked then
          [DrawOp.setSourceRgba CLICK_R CLICK_G CLICK_B (alphaOfAge i * 0.9)]
        else
          [DrawOp.setSourceRgba TRAIL_R TRAIL_G TRAIL_B (alphaOfAge i * 0.8)]) ++
        [DrawOp.arc (st.trail_points.getD (currentIndex st.trail_head i) default).x
           (st.trail_points.getD (currentIndex st.trail_head i) default).y
           TRAIL_RADIUS,
         DrawOp.fill] := by
  rw [drawAge_eq, if_neg h]

/-- Ages 0, 1 and 2 are far above the cull threshold. -/
lemma alpha_small_ages_not_culled :
    ¬ alphaOfAge 0 < 0.05 ∧ ¬ alphaOfAge 1 < 0.05 ∧ ¬ alphaOfAge 2 < 0.05 := by
  refine ⟨?_, ?_, ?_⟩ <;> norm_num [alphaOfAge, TRAIL_LENGTH]

/-- C9: every access to `trail_points` is in bounds.  `trail_head` starts at 0
and stays below `TRAIL_LENGTH` across every push, and the read index
`(trail_head - 1 - i + TRAIL_LENGTH) % TRAIL_LENGTH` computed by the render
loop lies in `[0, TRAIL_LENGTH)` for every age `i < TRAIL_LENGTH`. -/
theorem trail_access_in_bounds (st : RingState) (x y : Int) (c : Bool)
    (head i : Nat) (hi : i < TRAIL_LENGTH) :
    initState.trail_head = 0 ∧
    (push st x y c).trail_head < TRAIL_LENGTH ∧
    currentIndex head i < TRAIL_LENGTH := by
  refine ⟨rfl, ?_, ?_⟩
  · simp [push, TRAIL_LENGTH]
    omega
  · unfold currentIndex
    simp only [TRAIL_LENGTH] at hi ⊢
    rw [Int.tmod_eq_emod (by omega) (by omega)]
    omega

/-- Witness for `trail_access_in_bounds` at concrete inputs. -/
theorem trail_access_in_bounds_witness :
    initState.trail_head = 0 ∧
    (push initState 5 7 true).trail_head < TRAIL_LENGTH ∧
    currentIndex 3 49 < TRAIL_LENGTH :=
  trail_access_in_bounds initState 5 7 true 3 49 (by decide)

/-- C7: a failed pointer query leaves the buffer untouched (nothing is
stored, the head cursor does not advance), prints the failure report, sleeps
the 100000 μs backoff on top of the regular interval, and the loop simply
continues with the remaining iterations (never fatal). -/
theorem query_failure_nonfatal (st : RingState) (qs : List (Option PointerSample)) :
    (loopIter st none).state = st ∧
    (loopIter st none).reportedFailure = true ∧
    (loopIter st none).sleepMicros = 100000 + UPDATE_INTERVAL ∧
    runLoop st (none :: qs) = runLoop st qs :=
  ⟨rfl, rfl, rfl, rfl⟩

/-- C10: `draw_trail` never reads its `width`/`height` arguments, so the
trace of drawing operations is identical across any two surface dimensions;
in particular a sample far outside any screen is still painted. -/
theorem draw_trail_ignores_dimensions (st : RingState) (w1 h1 w2 h2 : Int) :
    draw_trail st w1 h1 = draw_trail st w2 h2 ∧
    DrawOp.arc (-100) (-200) TRAIL_RADIUS ∈
      draw_trail (push initState (-100) (-200) false) w1 h1 := by
  refine ⟨rfl, ?_⟩
  have htr : draw_trail (push initState (-100) (-200) false) w1 h1 =
      [DrawOp.setSourceRgba 0 0 0 0, DrawOp.setOperatorSource, DrawOp.paint,
       DrawOp.setOperatorOver,
       DrawOp.setSourceRgba TRAIL_R TRAIL_G TRAIL_B (alphaOfAge 0 * 0.8),
       DrawOp.arc (-100) (-200) TRAIL_RADIUS, DrawOp.fill] := by
    rw [show draw_trail (push initState (-100) (-200) false) w1 h1 =
        clearOps ++ (List.range TRAIL_LENGTH).flatMap
          (drawAge (push initState (-100) (-200) false)) from rfl]
    simp only [TRAIL_LENGTH, List.range_succ, List.range_zero, List.nil_append,
      List.flatMap_append, List.flatMap_cons, List.flatMap_nil]
    rw [drawAge_not_culled (push initState (-100) (-200) false) 0
      alpha_small_ages_not_culled.1]
    rfl
  rw [htr]
  simp

/-- C3: the fade computed for age `i` is exactly `1 - i / TRAIL_LENGTH`, and
it is strictly decreasing in the age: a younger sample always gets the
strictly larger alpha. -/
theorem fade_linear_and_monotone (i1 i2 : Fin TRAIL_LENGTH) (h : i1 < i2) :
    alphaOfAge i1.val = 1 - (i1.val : ℚ) / (TRAIL_LENGTH : ℚ) ∧
    alphaOfAge i2.val < alphaOfAge i1.val := by
  refine ⟨rfl, ?_⟩
  have hc : (i1.val : ℚ) < (i2.val : ℚ) := by exact_mod_cast h
  simp only [alphaOfAge, TRAIL_LENGTH, Nat.cast_ofNat]
  have : (i1.val : ℚ) / 50 < (i2.val : ℚ) / 50 := by linarith
  linarith

/-- Witness for `fade_linear_and_monotone` at ages 0 and 1. -/
theorem fade_linear_and_monotone_witness :
    alphaOfAge 0 = 1 - ((0 : Nat) : ℚ) / (TRAIL_LENGTH : ℚ) ∧
    alphaOfAge 1 < alphaOfAge 0 :=
  fade_linear_and_monotone ⟨0, by decide⟩ ⟨1, by decide⟩ (by decide)

/-- C4: a valid sample at age `i` is skipped by the renderer exactly when
`alpha = 1 - i/TRAIL_LENGTH` falls below the 0.05 cull threshold, which for
`TRAIL_LENGTH = 50` happens exactly for ages `i ≥ 48`; at the boundary
`alpha(47) = 0.06` and `alpha(48) = 0.04`.  (Culled slots still occupy their
loop iteration, so ages of later samples are unaffected.) -/
theorem cull_threshold (st : RingState) (i : Fin TRAIL_LENGTH)
    (hv : (st.trail_points.getD (currentIndex st.trail_head i.val) default).valid
      = true) :
    (drawAge st i.val = [] ↔ alphaOfAge i.val < 0.05) ∧
    (alphaOfAge i.val < 0.05 ↔ 48 ≤ i.val) ∧
    alphaOfAge 47 = 0.06 ∧ alphaOfAge 48 = 0.04 := by
  have hiff : alphaOfAge i.val < 0.05 ↔ 48 ≤ i.val := by
    unfold alphaOfAge
    simp only [TRAIL_LENGTH]
    rw [show (0.05 : ℚ) = 1 / 20 from by norm_num]
    constructor
    · intro h
      by_contra hc
      push_neg at hc
      have h47 : (i.val : ℚ) ≤ 47 := by exact_mod_cast Nat.lt_succ_iff.mp hc
      have : (i.val : ℚ) / 50 ≤ 47 / 50 := by linarith
      linarith
    · intro h
      have h48 : (48 : ℚ) ≤ (i.val : ℚ) := by exact_mod_cast h
      have : (48 : ℚ) / 50 ≤ (i.val : ℚ) / 50 := by linarith
      linarith
  refine ⟨?_, hiff, by norm_num [alphaOfAge, TRAIL_LENGTH],
    by norm_num [alphaOfAge, TRAIL_LENGTH]⟩
  rw [drawAge_eq, hv]
  by_cases hc : alphaOfAge i.val < 0.05
  · simp [hc]
  · simp [hc]

/-- Witness for `cull_threshold`: the single valid sample of a one-push
buffer, at age 0. -/
theorem cull_threshold_witness :
    (drawAge (push initState 0 0 false) 0 = [] ↔ alphaOfAge 0 < 0.05) ∧
    (alphaOfAge 0 < 0.05 ↔ 48 ≤ 0) ∧
    alphaOfAge 47 = 0.06 ∧ alphaOfAge 48 = 0.04 :=
  cull_threshold (push initState 0 0 false) ⟨0, by norm_num [TRAIL_LENGTH]⟩
    (by decide)

/-- C5: for a valid, non-culled sample the renderer sets exactly one fill
color: the configured click color (pure red) at opacity `alpha * 0.9` when
the sample's `clicked` flag is set, and the configured trail color at
opacity `alpha * 0.8` when it is not; either way it then fills the disc at
the sample's coordinates. -/
theorem click_color_selection (st : RingState) (i : Fin TRAIL_LENGTH)
    (hv : (st.trail_points.getD (currentIndex st.trail_head i.val) default).valid
      = true)
    (hnc : ¬ alphaOfAge i.val < 0.05) :
    ((st.trail_points.getD (currentIndex st.trail_head i.val) default).clicked
        = true →
      drawAge st i.val =
        [DrawOp.setSourceRgba CLICK_R CLICK_G CLICK_B (alphaOfAge i.val * 0.9),
         DrawOp.arc
           (st.trail_points.getD (currentIndex st.trail_head i.val) default).x
           (st.trail_points.getD (currentIndex st.trail_head i.val) default).y
           TRAIL_RADIUS,
         DrawOp.fill]) ∧
    ((st.trail_points.getD (currentIndex st.trail_head i.val) default).clicked
        = false →
      drawAge st i.val =
        [DrawOp.setSourceRgba TRAIL_R TRAIL_G TRAIL_B (alphaOfAge i.val * 0.8),
         DrawOp.arc
           (st.trail_points.getD (currentIndex st.trail_head i.val) default).x
           (st.trail_points.getD (currentIndex st.trail_head i.val) default).y
           TRAIL_RADIUS,
         DrawOp.fill]) := by
  constructor <;> intro hcl <;>
    rw [drawAge_not_culled st i.val hnc, hv, hcl] <;> simp

/-- Witness for `click_color_selection`: a clicked sample at (3,4), age 0. -/
theorem click_color_selection_witness :
    drawAge (push initState 3 4 true) 0 =
      [DrawOp.setSourceRgba CLICK_R CLICK_G CLICK_B (alphaOfAge 0 * 0.9),
       DrawOp.arc 3 4 TRAIL_RADIUS, DrawOp.fill] :=
  (click_color_selection (push initState 3 4 true) ⟨0, by norm_num [TRAIL_LENGTH]⟩
    (by decide) alpha_small_ages_not_culled.1).1 (by decide)

/-- C6: each render pass starts by destructively clearing the whole surface
to transparent (SOURCE-operator paint with alpha 0), so the pixels produced
by `render` do not depend on the previous surface contents at all; in
particular rendering twice from an unchanged buffer yields pixel-identical
output. -/
theorem render_idempotent_clear (st : RingState) (w h : Int) (s s1 s2 : Surface) :
    render st w h (render st w h s) = render st w h s ∧
    render st w h s1 = render st w h s2 :=
  ⟨rfl, rfl⟩

/-- C8: the end-to-end scenario.  After pushing (10,10,false), (20,20,true),
(30,30,false) into the startup buffer, iteration by age yields exactly those
three samples, newest first, every other slot being skipped as invalid; the
alphas of ages 0,1,2 are 1, 0.98, 0.96, all above the 0.05 threshold; and the
full render trace paints exactly three discs, only the age-1 disc in the
click color. -/
theorem end_to_end_scenario :
    sampleAtAge st3 0 = some ⟨30, 30, true, false⟩ ∧
    sampleAtAge st3 1 = some ⟨20, 20, true, true⟩ ∧
    sampleAtAge st3 2 = some ⟨10, 10, true, false⟩ ∧
    ((List.range TRAIL_LENGTH).all
      fun i => decide (i < 3) || (sampleAtAge st3 i).isNone) = true ∧
    alphaOfAge 0 = 1 ∧ alphaOfAge 1 = 0.98 ∧ alphaOfAge 2 = 0.96 ∧
    (0.05 : ℚ) ≤ alphaOfAge 2 ∧ alphaOfAge 2 < alphaOfAge 1 ∧
    alphaOfAge 1 < alphaOfAge 0 ∧
    ∀ w h : Int, draw_trail st3 w h =
      [DrawOp.setSourceRgba 0 0 0 0, DrawOp.setOperatorSource, DrawOp.paint,
       DrawOp.setOperatorOver,
       DrawOp.setSourceRgba TRAIL_R TRAIL_G TRAIL_B (alphaOfAge 0 * 0.8),
       DrawOp.arc 30 30 TRAIL_RADIUS, DrawOp.fill,
       DrawOp.setSourceRgba CLICK_R CLICK_G CLICK_B (alphaOfAge 1 * 0.9),
       DrawOp.arc 20 20 TRAIL_RADIUS, DrawOp.fill,
       DrawOp.setSourceRgba TRAIL_R TRAIL_G TRAIL_B (alphaOfAge 2 * 0.8),
       DrawOp.arc 10 10 TRAIL_RADIUS, DrawOp.fill] := by
  obtain ⟨h0, h1, h2⟩ := alpha_small_ages_not_culled
  refine ⟨by decide, by decide, by decide, by decide,
    by norm_num [alphaOfAge, TRAIL_LENGTH],
    by norm_num [alphaOfAge, TRAIL_LENGTH],
    by norm_num [alphaOfAge, TRAIL_LENGTH],
    by norm_num [alphaOfAge, TRAIL_LENGTH],
    by norm_num [alphaOfAge, TRAIL_LENGTH],
    by norm_num [alphaOfAge, TRAIL_LENGTH], ?_⟩
  intro w h
  rw [show draw_trail st3 w h =
      clearOps ++ (List.range TRAIL_LENGTH).flatMap (drawAge st3) from rfl]
  simp only [TRAIL_LENGTH, List.range_succ, List.range_zero, List.nil_append,
    List.flatMap_append, List.flatMap_cons, List.flatMap_nil]
  rw [drawAge_not_culled st3 0 h0, drawAge_not_culled st3 1 h1,
    drawAge_not_culled st3 2 h2]
  rfl

/-- C2: the buffer starts as fifty zeroed, invalid slots; after any sequence
of at least `TRAIL_LENGTH` pushes it holds exactly `TRAIL_LENGTH` entries,
all marked valid; and a push always stores its sample unmodified — any
integer coordinates, negative or out of screen bounds, are accepted — while
keeping the buffer well formed. -/
theorem ring_capacity_invariant (L : List (Int × Int × Bool))
    (hL : TRAIL_LENGTH ≤ L.length) (st : RingState) (x y : Int) (c : Bool)
    (hlen : st.trail_points.length = TRAIL_LENGTH)
    (hh : st.trail_head < TRAIL_LENGTH) :
    (∀ j : Fin TRAIL_LENGTH,
      initState.trail_points.getD j.val default = ⟨0, 0, false, false⟩) ∧
    (pushAll initState L).trail_points.length = TRAIL_LENGTH ∧
    (∀ j : Fin TRAIL_LENGTH,
      ((pushAll initState L).trail_points.getD j.val default).valid = true) ∧
    (push st x y c).trail_points.getD st.trail_head default = ⟨x, y, true, c⟩ ∧
    (push st x y c).trail_points.length = TRAIL_LENGTH ∧
    (push st x y c).trail_head < TRAIL_LENGTH := by
  refine ⟨by decide, ?_, ?_, ?_, ?_, ?_⟩
  · rw [pushAll_length]
    simp [initState]
  · intro j
    rw [pushAll_init_valid L j.val j.isLt]
    have hjl := j.isLt
    simp only [TRAIL_LENGTH] at hjl hL
    omega
  · show (st.trail_points.set st.trail_head ⟨x, y, true, c⟩).getD
      st.trail_head default = _
    rw [getD_set_eq_ite, if_pos ⟨rfl, by omega⟩]
  · simp [push, hlen]
  · simp only [push, TRAIL_LENGTH]
    omega

/-- Witness for `ring_capacity_invariant`: fifty pushes of an off-screen,
negative-coordinate sample leave slot 7 valid. -/
theorem ring_capacity_invariant_witness :
    ((pushAll initState
        (List.replicate 50 ((-3 : Int), (1000000 : Int), true))).trail_points.getD
      7 default).valid = true :=
  (ring_capacity_invariant (List.replicate 50 ((-3 : Int), (1000000 : Int), true))
    (by decide) initState (-3) 1000000 true (by decide) (by decide)).2.2.1
    ⟨7, by norm_num [TRAIL_LENGTH]⟩

/-- Unfolding of `sampleAtAge` with the loop body's local variable inlined
(pure zeta reduction). -/
lemma sampleAtAge_eq (st : RingState) (i : Nat) :
    sampleAtAge st i =
      if (st.trail_points.getD (currentIndex st.trail_head i) default).valid then
        some (st.trail_points.getD (currentIndex st.trail_head i) default)
      else none := rfl

/-- A slot that none of the pushes of `L` writes keeps its previous content. -/
lemma pushAll_getD_untouched (L : List (Int × Int × Bool)) (st : RingState)
    (j : Nat) (hh : st.trail_head < TRAIL_LENGTH)
    (hno : ∀ t, t < L.length → (st.trail_head + t) % TRAIL_LENGTH ≠ j) :
    (pushAll st L).trail_points.getD j default =
      st.trail_points.getD j default := by
  induction L generalizing st with
  | nil => rfl
  | cons q L2 ih =>
    show (pushAll (push st q.1 q.2.1 q.2.2) L2).trail_points.getD j default = _
    rw [ih (push st q.1 q.2.1 q.2.2)
      (by simp only [push, TRAIL_LENGTH]; omega)
      (by
        intro t ht
        have hx := hno (t + 1) (by simpa using Nat.succ_lt_succ ht)
        show ((st.trail_head + 1) % TRAIL_LENGTH + t) % TRAIL_LENGTH ≠ j
        simp only [TRAIL_LENGTH] at hx ⊢
        omega)]
    show (st.trail_points.set st.trail_head
      ⟨q.1, q.2.1, true, q.2.2⟩).getD j default = _
    rw [getD_set_eq_ite]
    have hx := hno 0 (by simp)
    simp only [TRAIL_LENGTH] at hx hh
    rw [if_neg (by omega)]

/-- The slot written by push number `t` of `L` (zero-indexed) holds exactly
that sample afterwards, provided no later push of `L` wraps around onto the
same slot. -/
lemma pushAll_getD_written (L : List (Int × Int × Bool)) (st : RingState)
    (t : Nat) (hh : st.trail_head < TRAIL_LENGTH)
    (hlen : st.trail_points.length = TRAIL_LENGTH)
    (ht : t < L.length) (hlast : L.length ≤ t + TRAIL_LENGTH) :
    (pushAll st L).trail_points.getD
        ((st.trail_head + t) % TRAIL_LENGTH) default =
      ⟨(L.getD t default).1, (L.getD t default).2.1, true,
        (L.getD t default).2.2⟩ := by
  induction L generalizing st t with
  | nil => simp at ht
  | cons q L2 ih =>
    show (pushAll (push st q.1 q.2.1 q.2.2) L2).trail_points.getD _ default = _
    cases t with
    | zero =>
      have hmod : (st.trail_head + 0) % TRAIL_LENGTH = st.trail_head := by
        simp only [TRAIL_LENGTH] at hh ⊢
        omega
      rw [hmod]
      rw [pushAll_getD_untouched L2 (push st q.1 q.2.1 q.2.2) st.trail_head
        (by simp only [push, TRAIL_LENGTH]; omega)
        (by
          intro u hu
          have hu2 : u + 1 < TRAIL_LENGTH := by
            have := hlast
            simp only [List.length_cons, TRAIL_LENGTH] at this ⊢
            omega
          show ((st.trail_head + 1) % TRAIL_LENGTH + u) % TRAIL_LENGTH
            ≠ st.trail_head
          simp only [TRAIL_LENGTH] at hh hu2 ⊢
          omega)]
      show (st.trail_points.set st.trail_head
        ⟨q.1, q.2.1, true, q.2.2⟩).getD st.trail_head default = _
      rw [getD_set_eq_ite, if_pos ⟨rfl, by omega⟩]
      simp
    | succ u =>
      have hidx : (st.trail_head + (u + 1)) % TRAIL_LENGTH =
          ((st.trail_head + 1) % TRAIL_LENGTH + u) % TRAIL_LENGTH := by
        simp only [TRAIL_LENGTH]
        omega
      rw [hidx]
      have hmain := ih (push st q.1 q.2.1 q.2.2) u
        (by simp only [push, TRAIL_LENGTH]; omega)
        (by simp [push, hlen])
        (by simpa using Nat.lt_of_succ_lt_succ ht)
        (by
          have := hlast
          simp only [List.length_cons] at this ⊢
          omega)
      rw [show (push st q.1 q.2.1 q.2.2).trail_head =
        (st.trail_head + 1) % TRAIL_LENGTH from rfl] at hmain
      rw [hmain]
      simp

/-- C1: pushing `TRAIL_LENGTH + 1` samples into the empty buffer overwrites
the first: afterwards age `i` reads exactly the `(51 - i)`-th pushed sample
(for `f` indexed from 0: the sample `f (50 - i)`), so age 0 yields the last
push, age 49 yields the second push, and the very first push `f 0` has been
evicted from every readable slot. -/
theorem overwrite_ordering (f : Fin (TRAIL_LENGTH + 1) → Int × Int × Bool)
    (i : Fin TRAIL_LENGTH) :
    sampleAtAge (pushAll initState (List.ofFn f)) i.val =
      some ⟨(f ⟨TRAIL_LENGTH - i.val, by omega⟩).1,
            (f ⟨TRAIL_LENGTH - i.val, by omega⟩).2.1, true,
            (f ⟨TRAIL_LENGTH - i.val, by omega⟩).2.2⟩ := by
  have hi := i.isLt
  have hlen51 : (List.ofFn f).length = TRAIL_LENGTH + 1 := List.length_ofFn f
  have hhead : (pushAll initState (List.ofFn f)).trail_head = 1 := by
    rw [pushAll_head _ initState (by decide), hlen51]
    decide
  have hidx : currentIndex 1 i.val =
      (initState.trail_head + (TRAIL_LENGTH - i.val)) % TRAIL_LENGTH := by
    rw [show initState.trail_head = 0 from rfl]
    unfold currentIndex
    simp only [TRAIL_LENGTH] at hi ⊢
    rw [Int.tmod_eq_emod (by omega) (by omega)]
    omega
  have hw := pushAll_getD_written (List.ofFn f) initState
    (TRAIL_LENGTH - i.val)
    (by decide)
    (by decide)
    (by rw [hlen51]; omega)
    (by rw [hlen51]; omega)
  rw [sampleAtAge_eq, hhead, hidx, hw]
  have hget : (List.ofFn f).getD (TRAIL_LENGTH - i.val) default =
      f ⟨TRAIL_LENGTH - i.val, by omega⟩ := by
    rw [List.getD_eq_getElem?_getD, List.getElem?_ofFn]
    have hlt : TRAIL_LENGTH - i.val < TRAIL_LENGTH + 1 := by omega
    simp [List.ofFnNthVal, hlt]
  rw [hget]
  simp
